import Mathlib

/-!
Verification of the bundle-packing core of `textmify.py`.

The development shallowly embeds the two components the specification's
claims are about:

* `count_words` (source lines 60-67): counts matches of the regex
  `\b\w+\b` in a file's text content, returning 0 when reading fails.
* `combine_markdown_files` (source lines 136-178): discovers `.md` files
  whose stem does not start with `packed_`, sorts them by filename, and
  greedily streams them into bundles of at most `max_words` words,
  writing each finalized bundle as `packed_<index>.md`.

Characters are modelled over the ASCII word class (alphanumeric or
underscore); file contents are Lean `String`s.  A file's two independent
failure points in the source (the read inside `count_words`, and the
read inside the packing loop) are modelled by two boolean failure flags
on the file record, since whether an `open` raises is a property of the
environment, not of the text.
-/

/-- ASCII word character, the character class of the regex `\w`
(letters, digits, underscore). -/
def isWordChar (c : Char) : Bool := c.isAlphanum || c == '_'

/-- Position state of a left-to-right regex scan of `\b\w+\b`, as
performed by `re.findall`:

* `scanNW`: scanning for the next match; the previous character (if
  any) is a non-word character, so `\b` holds at the current position
  as soon as a word character is seen.
* `scanW`: scanning for the next match, but the previous character is a
  word character, so no match can begin at the current position.
* `skipRun`: inside the `\w+` of the current match, greedily consuming
  the rest of its maximal run. -/
inductive ScanMode where
  | scanNW : ScanMode
  | scanW : ScanMode
  | skipRun : ScanMode
deriving Repr, DecidableEq

/-- Model of `len(re.findall(r'\b\w+\b', content))` over a character
list: a match begins at a word character preceded by a non-word
character (or the start of the text), `\w+` greedily consumes the whole
maximal run, and the trailing `\b` then holds because the next
character is a non-word character or the end of the text. -/
def findallCount (w : Char → Bool) : List Char → ScanMode → Nat
  | [], _ => 0
  | c :: rest, ScanMode.scanNW =>
    if w c then 1 + findallCount w rest ScanMode.skipRun
    else findallCount w rest ScanMode.scanNW
  | c :: rest, ScanMode.scanW =>
    if w c then findallCount w rest ScanMode.scanW
    else findallCount w rest ScanMode.scanNW
  | c :: rest, ScanMode.skipRun =>
    if w c then findallCount w rest ScanMode.skipRun
    else findallCount w rest ScanMode.scanNW

/-- Number of maximal runs of characters satisfying `w`; the boolean
argument records whether the previous character was inside a run.  This
is the specification's description of a "word" count (one count per
maximal run of word characters). -/
def runCount (w : Char → Bool) : List Char → Bool → Nat
  | [], _ => 0
  | c :: rest, inRun =>
    if w c then (if inRun then 0 else 1) + runCount w rest true
    else runCount w rest false

/-- Source `count_words`, restricted to its pure part: the number of
`\b\w+\b` regex matches in a text content (`len(re.findall(...))`). -/
def count_words (s : String) : Nat := findallCount isWordChar s.data ScanMode.scanNW

/-- Spec-side word counter: the number of maximal runs of
alphanumeric/underscore characters in the content.  Stated from the
spec's words ("a maximal run of alphanumeric/underscore characters"),
to be compared with the source-side `count_words`. -/
def maximalRunCount (s : String) : Nat := runCount isWordChar s.data false

/-- A markdown file in the directory being packed.  `name` is the stem
(all discovered files carry the `.md` extension, fixed by the glob
`*.md`).  `countFails` models the read inside `count_words` raising
(the function then returns 0); `readFails` models the read inside the
packing loop raising (the file is then skipped). -/
structure MdFile where
  name : String
  content : String
  countFails : Bool
  readFails : Bool
deriving Repr, DecidableEq, Inhabited

/-- Source `count_words(md_file)` as called by the packing loop: 0 when
the read fails, otherwise the regex count of the content. -/
def fileWordCount (f : MdFile) : Nat := if f.countFails then 0 else count_words f.content

/-- The formatted piece appended for one member:
`f"## {md_file.stem}\n\n{file_content}"`. -/
def fmtPiece (f : MdFile) : String := "## " ++ f.name ++ "\n\n" ++ f.content

/-- The joining delimiter `'\n\n---\n\n'` between members of a bundle. -/
def bundleDelim : String := "\n\n---\n\n"

/-- Stem of the output file of bundle number `i`: `packed_{i}`. -/
def packedName (i : Nat) : String := "packed_" ++ toString i

/-- Model of Python's `str.startswith`: is `pre` a prefix of `s`? -/
def isPre : List Char → List Char → Bool
  | [], _ => true
  | _ :: _, [] => false
  | a :: as, b :: bs => decide (a = b) && isPre as bs

/-- `s.startswith(pre)` for strings. -/
def pyStartswith (s pre : String) : Bool := isPre pre.data s.data

/-- Discovery filter of the source (line 140): keep the file unless its
stem starts with `packed_`. -/
def eligibleFile (f : MdFile) : Bool := !(pyStartswith f.name "packed_")

/-- Lexicographic comparison of character lists by code point, the
order Python uses to compare strings. -/
def listLtB : List Char → List Char → Bool
  | _, [] => false
  | [], _ :: _ => true
  | a :: as, b :: bs =>
    if Nat.blt a.toNat b.toNat then true
    else if Nat.blt b.toNat a.toNat then false
    else listLtB as bs

/-- Python string comparison `a < b` (lexicographic by code point). -/
def strLtB (a b : String) : Bool := listLtB a.data b.data

/-- Filename of an input file on disk: its stem plus the `.md`
extension fixed by the glob `*.md`.  This is the final path component
the source's `Path` values carry, and hence the key `sort()` compares
(all discovered paths share the directory prefix, so `Path` order is
filename order). -/
def mdFileName (f : MdFile) : String := f.name ++ ".md"

/-- Insert a file into an already sorted list, ordered by filename;
helper of `pySort`. -/
def pySortInsert (f : MdFile) : List MdFile → List MdFile
  | [] => [f]
  | g :: gs =>
    if strLtB (mdFileName f) (mdFileName g) then f :: g :: gs else g :: pySortInsert f gs

/-- Model of `markdown_files.sort()` (line 150): sort the discovered
`Path`s, i.e. compare full filenames including the `.md` extension (not
bare stems — the two orders differ when one stem is a proper prefix of
another, e.g. `report-v2.md` sorts before `report.md` although the stem
`report` sorts before `report-v2`).  Directory listings carry distinct
names, so any correct comparison sort yields the same list; insertion
sort is used for a directly computable model. -/
def pySort : List MdFile → List MdFile
  | [] => []
  | f :: fs => pySortInsert f (pySort fs)

/-- Insert a file into an already sorted list, ordered by bare artifact
name (stem); helper of `nameSort`. -/
def nameSortInsert (f : MdFile) : List MdFile → List MdFile
  | [] => [f]
  | g :: gs => if strLtB f.name g.name then f :: g :: gs else g :: nameSortInsert f gs

/-- Spec-side sort: the "lexicographic sort order of artifact names"
(stems) the specification describes.  Stated from the spec's words, to
be compared with the program's filename-based `pySort`. -/
def nameSort : List MdFile → List MdFile
  | [] => []
  | f :: fs => nameSortInsert f (nameSort fs)

/-- A finalized bundle: its sequential `index`, the stem `name` of the
output file (`packed_<index>`), the written `text`, and — for stating
the packing invariants — the ordered list `mems` of member files. -/
structure Bundle where
  index : Nat
  name : String
  text : String
  mems : List MdFile
deriving Repr, DecidableEq, Inhabited

/-- Written filename of a bundle (the glob fixes the `.md` extension). -/
def bundleFileName (b : Bundle) : String := b.name ++ ".md"

/-- A produced bundle file as it would be seen by a later discovery
pass over the same directory. -/
def bundleToFile (b : Bundle) : MdFile := ⟨b.name, b.text, false, false⟩

/-- Loop state of `combine_markdown_files`: `idx` is
`current_file_index`, `wc` is `current_word_count`, `content` is
`current_content`, `out` is `combined_files`.  `mems` additionally
records which files were appended to the accumulator (in the source
this is implicit in `current_content`). -/
structure PackState where
  idx : Nat
  wc : Nat
  content : List String
  mems : List MdFile
  out : List Bundle
deriving Repr, DecidableEq

/-- Initial loop state (source lines 146-148). -/
def initState : PackState := ⟨0, 0, [], [], []⟩

/-- Finalizing the accumulator (source lines 156-162 and 174-177):
write `'\n\n---\n\n'.join(current_content)` to `packed_<idx>.md`,
append it to the result list, increment the index, reset the
accumulator. -/
def flushState (st : PackState) : PackState :=
  { idx := st.idx + 1, wc := 0, content := [], mems := [],
    out := st.out ++
      [⟨st.idx, packedName st.idx, String.intercalate bundleDelim st.content, st.mems⟩] }

/-- One iteration of the packing loop (source lines 151-171): compute
the file's word count; if `current_word_count > 0` and adding the file
would exceed `max_words`, finalize the current bundle first; then
attempt to read the file, appending its formatted content and adding
its word count unless the read fails. -/
def packStep (m : Nat) (st : PackState) (f : MdFile) : PackState :=
  let w := fileWordCount f
  let st1 := if 0 < st.wc ∧ m < st.wc + w then flushState st else st
  if f.readFails then st1
  else { st1 with wc := st1.wc + w,
                  content := st1.content ++ [fmtPiece f],
                  mems := st1.mems ++ [f] }

/-- Source `combine_markdown_files` (lines 136-178): discover `.md`
files whose stem does not start with `packed_`; if none, return the
empty list; otherwise sort by name, stream them through `packStep`, and
finalize the last bundle when `current_content` is non-empty.  The
directory is modelled as the list of its `.md` files at invocation
time. -/
def combine_markdown_files (dirFiles : List MdFile) (max_words : Nat) : List Bundle :=
  let markdown_files := dirFiles.filter eligibleFile
  if markdown_files.isEmpty then []
  else
    let sorted := pySort markdown_files
    let fin := sorted.foldl (packStep max_words) initState
    if fin.content.isEmpty then fin.out else (flushState fin).out

/-- Total word count of a list of member files. -/
def memsWc (l : List MdFile) : Nat := (l.map fileWordCount).sum

/-- Concatenation of the member sequences of a list of bundles, in
bundle order. -/
def joinMems (outs : List Bundle) : List MdFile := (outs.map Bundle.mems).flatten

/-- The eligible input list of a packing invocation in the order the
program processes it: sorted by filename. -/
def sortedEligible (dirFiles : List MdFile) : List MdFile :=
  pySort (dirFiles.filter eligibleFile)

/-- Whether the packing loop's read of this file succeeds. -/
def readOK (f : MdFile) : Bool := !f.readFails

/-- All files appended to any bundle so far, finalized or not. -/
def stAll (st : PackState) : List MdFile := joinMems st.out ++ st.mems

/-- Whether a scan position is inside (or directly after) a run of word
characters, the quantity the run counter tracks. -/
def modeInRun : ScanMode → Bool
  | ScanMode.scanNW => false
  | ScanMode.scanW => true
  | ScanMode.skipRun => true

theorem findallCount_eq_runCount (w : Char → Bool) :
    ∀ (l : List Char) (mo : ScanMode), findallCount w l mo = runCount w l (modeInRun mo) := by
  intro l
  induction l with
  | nil => intro mo; cases mo <;> rfl
  | cons c rest ih =>
    intro mo
    cases mo <;> by_cases hw : w c <;>
      simp [findallCount, runCount, modeInRun, hw, ih]

theorem pySortInsert_perm (f : MdFile) (l : List MdFile) :
    List.Perm (pySortInsert f l) (f :: l) := by
  induction l with
  | nil => simp [pySortInsert]
  | cons g gs ih =>
    by_cases h : strLtB (mdFileName f) (mdFileName g) = true
    · simp [pySortInsert, h]
    · simp only [pySortInsert, h, if_false]
      exact ((ih.cons g).trans (List.Perm.swap f g gs))

theorem pySort_perm (l : List MdFile) : List.Perm (pySort l) l := by
  induction l with
  | nil => simp [pySort]
  | cons f fs ih =>
    exact (pySortInsert_perm f (pySort fs)).trans (ih.cons f)

theorem mem_pySort {f : MdFile} {l : List MdFile} : f ∈ pySort l ↔ f ∈ l :=
  (pySort_perm l).mem_iff

theorem memsWc_append (l1 l2 : List MdFile) :
    memsWc (l1 ++ l2) = memsWc l1 + memsWc l2 := by
  simp [memsWc]

theorem joinMems_append (o1 o2 : List Bundle) :
    joinMems (o1 ++ o2) = joinMems o1 ++ joinMems o2 := by
  simp [joinMems]

theorem filter_pos_of_memsWc_zero (l : List MdFile) (h : memsWc l = 0) :
    l.filter (fun f => decide (0 < fileWordCount f)) = [] := by
  rw [List.filter_eq_nil_iff]
  intro f hf
  have hz : fileWordCount f = 0 := by
    have := (List.sum_eq_zero_iff (l := l.map fileWordCount)).mp h
    exact this (fileWordCount f) (List.mem_map_of_mem fileWordCount hf)
  simp [hz]

theorem isPre_append_self (l t : List Char) : isPre l (l ++ t) = true := by
  induction l with
  | nil => rfl
  | cons a as ih => simp [isPre, ih]

theorem pyStartswith_packedName (i : Nat) :
    pyStartswith (packedName i) "packed_" = true := by
  unfold pyStartswith packedName
  rw [String.data_append]
  exact isPre_append_self _ _

/-- The invariant a finalized bundle satisfies: its total word count can
exceed the threshold only when exactly one member has a positive word
count. -/
def GoodBundle (m : Nat) (b : Bundle) : Prop :=
  m < memsWc b.mems → (b.mems.filter (fun f => decide (0 < fileWordCount f))).length = 1

/-- Loop invariant of the packing loop. -/
structure PackInv (m : Nat) (st : PackState) : Prop where
  wc_eq : st.wc = memsWc st.mems
  content_eq : st.content = st.mems.map fmtPiece
  idx_eq : st.idx = st.out.length
  out_good : ∀ b ∈ st.out, GoodBundle m b
  out_shape : ∀ (i : Nat) (b : Bundle), st.out[i]? = some b →
    b.index = i ∧ b.name = packedName i ∧
    b.text = String.intercalate bundleDelim (b.mems.map fmtPiece)
  acc_good : st.wc ≤ m ∨ (st.mems.filter (fun f => decide (0 < fileWordCount f))).length = 1

theorem inv_initState (m : Nat) : PackInv m initState := by
  refine ⟨rfl, rfl, rfl, ?_, ?_, Or.inl (Nat.zero_le m)⟩
  · intro b hb; simp [initState] at hb
  · intro i b hb; simp [initState] at hb

theorem inv_flushState (m : Nat) (st : PackState) (h : PackInv m st) : PackInv m (flushState st) := by
  obtain ⟨hwc, hcon, hidx, hgood, hshape, hacc⟩ := h
  refine ⟨rfl, rfl, ?_, ?_, ?_, Or.inl (Nat.zero_le m)⟩
  · simp [flushState, hidx]
  · intro b hb
    rw [flushState] at hb
    rcases List.mem_append.mp hb with hold | hnew
    · exact hgood b hold
    · have hb2 : b = ⟨st.idx, packedName st.idx,
          String.intercalate bundleDelim st.content, st.mems⟩ := by
        simpa using hnew
      subst hb2
      intro hm
      rcases hacc with hle | hone
      · exact absurd hm (by simpa [hwc] using Nat.not_lt.mpr hle)
      · exact hone
  · intro i b hb
    rw [flushState] at hb
    simp only at hb
    by_cases hi : i < st.out.length
    · rw [List.getElem?_append, if_pos hi] at hb
      exact hshape i b hb
    · have hge : st.out.length ≤ i := Nat.le_of_not_lt hi
      rw [List.getElem?_append_right hge] at hb
      rcases hsub : i - st.out.length with _ | j
      · rw [hsub] at hb
        have hb2 : b = ⟨st.idx, packedName st.idx,
            String.intercalate bundleDelim st.content, st.mems⟩ := by
          have h0 := hb
          simp at h0
          exact h0.symm
        have hieq : i = st.out.length := Nat.le_antisymm (Nat.sub_eq_zero_iff_le.mp hsub) hge
        subst hb2
        refine ⟨by simpa [hieq] using hidx, by rw [hidx, hieq], ?_⟩
        simp [hcon]
      · rw [hsub] at hb
        simp at hb

theorem inv_packStep (m : Nat) (st : PackState) (f : MdFile) (h : PackInv m st) :
    PackInv m (packStep m st f) := by
  by_cases hc : 0 < st.wc ∧ m < st.wc + fileWordCount f
  all_goals by_cases hr : f.readFails = true
  all_goals
    first
    | (have hres : packStep m st f = flushState st := by
        simp [packStep, hc, hr]
       rw [hres]; exact inv_flushState m st h)
    | (have hres : packStep m st f = st := by
        simp [packStep, hc, hr]
       rw [hres]; exact h)
    | skip
  -- remaining: the read succeeds and the file is appended
  · -- flush first, then append to the fresh accumulator
    have h1 := inv_flushState m st h
    have hres : packStep m st f =
        { flushState st with wc := 0 + fileWordCount f,
                             content := [] ++ [fmtPiece f],
                             mems := [] ++ [f] } := by
      simp [packStep, hc, hr, flushState]
    rw [hres]
    obtain ⟨hwc, hcon, hidx, hgood, hshape, _⟩ := h1
    refine ⟨?_, ?_, hidx, hgood, hshape, ?_⟩
    · simp [memsWc]
    · simp
    · by_cases hw : fileWordCount f ≤ m
      · exact Or.inl (by simpa using hw)
      · refine Or.inr ?_
        have hpos : 0 < fileWordCount f := Nat.pos_of_ne_zero (by
          intro h0; exact hw (by simp [h0]))
        simp [hpos]
  · -- no flush; append to the current accumulator
    have hres : packStep m st f =
        { st with wc := st.wc + fileWordCount f,
                  content := st.content ++ [fmtPiece f],
                  mems := st.mems ++ [f] } := by
      simp [packStep, hc, hr]
    rw [hres]
    obtain ⟨hwc, hcon, hidx, hgood, hshape, hacc⟩ := h
    refine ⟨?_, ?_, hidx, hgood, hshape, ?_⟩
    · simp [memsWc_append, hwc, memsWc]
    · simp [hcon]
    · rcases Decidable.not_and_iff_or_not.mp hc with hz | hle
      · -- current_word_count = 0: every current member has zero words
        have hz0 : st.wc = 0 := Nat.eq_zero_of_not_pos hz
        have hmz : memsWc st.mems = 0 := by rw [← hwc, hz0]
        by_cases hw : fileWordCount f ≤ m
        · exact Or.inl (by simp [hz0]; exact hw)
        · refine Or.inr ?_
          have hpos : 0 < fileWordCount f := Nat.pos_of_ne_zero (by
            intro h0; exact hw (by simp [h0]))
          rw [List.filter_append, filter_pos_of_memsWc_zero st.mems hmz]
          simp [hpos]
      · -- adding the file stays within the threshold
        exact Or.inl (by simpa using Nat.le_of_not_lt hle)

theorem inv_foldl (m : Nat) (l : List MdFile) :
    ∀ st : PackState, PackInv m st → PackInv m (l.foldl (packStep m) st) := by
  induction l with
  | nil => intro st h; simpa using h
  | cons f fs ih =>
    intro st h
    simpa using ih (packStep m st f) (inv_packStep m st f h)

theorem stAll_flushState (st : PackState) : stAll (flushState st) = stAll st := by
  simp [stAll, flushState, joinMems_append, joinMems]

theorem stAll_packStep (m : Nat) (st : PackState) (f : MdFile) :
    stAll (packStep m st f) = stAll st ++ (if f.readFails then [] else [f]) := by
  by_cases hc : 0 < st.wc ∧ m < st.wc + fileWordCount f
  all_goals by_cases hr : f.readFails = true
  · have hres : packStep m st f = flushState st := by simp [packStep, hc, hr]
    rw [hres, stAll_flushState]; simp [hr]
  · have hres : packStep m st f =
        { flushState st with wc := 0 + fileWordCount f,
                             content := [] ++ [fmtPiece f],
                             mems := [] ++ [f] } := by
      simp [packStep, hc, hr, flushState]
    rw [hres]
    have h1 := stAll_flushState st
    simp only [stAll, flushState] at h1 ⊢
    simp only [hr, if_false]
    simpa using congrArg (· ++ [f]) h1
  · have hres : packStep m st f = st := by simp [packStep, hc, hr]
    rw [hres]; simp [hr]
  · have hres : packStep m st f =
        { st with wc := st.wc + fileWordCount f,
                  content := st.content ++ [fmtPiece f],
                  mems := st.mems ++ [f] } := by
      simp [packStep, hc, hr]
    rw [hres]; simp [stAll, hr]

theorem stAll_foldl (m : Nat) (l : List MdFile) :
    ∀ st : PackState, stAll (l.foldl (packStep m) st) = stAll st ++ l.filter readOK := by
  induction l with
  | nil => intro st; simp
  | cons f fs ih =>
    intro st
    have step := stAll_packStep m st f
    by_cases hr : f.readFails = true
    · simp only [List.foldl_cons, ih (packStep m st f), step, hr, if_true,
        List.append_nil, List.filter_cons]
      simp [readOK, hr]
    · simp only [List.foldl_cons, ih (packStep m st f), step, hr, if_false,
        List.filter_cons]
      simp [readOK, hr, List.append_assoc]

theorem combine_empty_of_no_eligible (dirFiles : List MdFile) (m : Nat)
    (h : dirFiles.filter eligibleFile = []) : combine_markdown_files dirFiles m = [] := by
  simp [combine_markdown_files, h]

theorem joinMems_combine (dirFiles : List MdFile) (m : Nat) :
    joinMems (combine_markdown_files dirFiles m) =
      (sortedEligible dirFiles).filter readOK := by
  unfold combine_markdown_files
  by_cases he : (dirFiles.filter eligibleFile).isEmpty
  · have h0 : dirFiles.filter eligibleFile = [] := List.isEmpty_iff.mp he
    simp [he, sortedEligible, h0, pySort, joinMems]
  · simp only [he, Bool.false_eq_true, if_false]
    have hall := stAll_foldl m (pySort (dirFiles.filter eligibleFile)) initState
    have hinv := inv_foldl m (pySort (dirFiles.filter eligibleFile)) initState (inv_initState m)
    set fin := (pySort (dirFiles.filter eligibleFile)).foldl (packStep m) initState with hfin
    have hall2 : stAll fin = (sortedEligible dirFiles).filter readOK := by
      rw [hall]; simp [stAll, initState, joinMems, sortedEligible]
    by_cases hcon : fin.content.isEmpty
    · have hcnil : fin.content = [] := List.isEmpty_iff.mp hcon
      have hmnil : fin.mems = [] := by
        have := hinv.content_eq
        rw [hcnil] at this
        exact (List.map_eq_nil_iff.mp this.symm)
      simp only [hcon, if_true]
      rw [← hall2]
      simp [stAll, hmnil]
    · simp only [hcon, Bool.false_eq_true, if_false]
      rw [← hall2]
      simp [stAll, flushState, joinMems_append, joinMems]

theorem combine_mem_good (dirFiles : List MdFile) (m : Nat) (b : Bundle)
    (hb : b ∈ combine_markdown_files dirFiles m) : GoodBundle m b := by
  rw [combine_markdown_files] at hb
  by_cases he : (dirFiles.filter eligibleFile).isEmpty
  · simp [he] at hb
  · simp only [he, Bool.false_eq_true, if_false] at hb
    have hinv := inv_foldl m (pySort (dirFiles.filter eligibleFile)) initState (inv_initState m)
    set fin := (pySort (dirFiles.filter eligibleFile)).foldl (packStep m) initState with hfin
    by_cases hcon : fin.content.isEmpty
    · simp only [hcon, if_true] at hb
      exact hinv.out_good b hb
    · simp only [hcon, Bool.false_eq_true, if_false] at hb
      exact (inv_flushState m fin hinv).out_good b hb

theorem combine_shape (dirFiles : List MdFile) (m : Nat) (i : Nat) (b : Bundle)
    (hb : (combine_markdown_files dirFiles m)[i]? = some b) :
    b.index = i ∧ b.name = packedName i ∧
      b.text = String.intercalate bundleDelim (b.mems.map fmtPiece) := by
  rw [combine_markdown_files] at hb
  by_cases he : (dirFiles.filter eligibleFile).isEmpty
  · simp [he] at hb
  · simp only [he, Bool.false_eq_true, if_false] at hb
    have hinv := inv_foldl m (pySort (dirFiles.filter eligibleFile)) initState (inv_initState m)
    set fin := (pySort (dirFiles.filter eligibleFile)).foldl (packStep m) initState with hfin
    by_cases hcon : fin.content.isEmpty
    · simp only [hcon, if_true] at hb
      exact hinv.out_shape i b hb
    · simp only [hcon, Bool.false_eq_true, if_false] at hb
      exact (inv_flushState m fin hinv).out_shape i b hb

theorem mem_joinMems_of_mem (outs : List Bundle) (b : Bundle) (f : MdFile)
    (hb : b ∈ outs) (hf : f ∈ b.mems) : f ∈ joinMems outs := by
  unfold joinMems
  rw [List.mem_flatten]
  exact ⟨b.mems, List.mem_map_of_mem Bundle.mems hb, hf⟩

/-- An input file with empty content: zero words. -/
def fileA : MdFile := ⟨"a", "", false, false⟩

/-- An input file with two words. -/
def fileB : MdFile := ⟨"b", "x y", false, false⟩

/-- An input file with one word. -/
def fileC : MdFile := ⟨"c", "one", false, false⟩

/-- An input file with two words. -/
def fileD : MdFile := ⟨"d", "two words", false, false⟩

/-- An input file with empty content: zero words. -/
def fileE : MdFile := ⟨"e", "", false, false⟩

/-- An input file with three words. -/
def fileH : MdFile := ⟨"h", "w w w", false, false⟩

/-- An input file whose read during packing fails. -/
def fileR : MdFile := ⟨"r", "lost text", false, true⟩

/-- Content of the spec's oversized example: 200000 one-letter words. -/
def hugeData : List Char := (List.replicate 200000 ['w', ' ']).flatten

/-- The spec's oversized example input: `huge.md` with 200000 words. -/
def hugeFile : MdFile := ⟨"huge", ⟨hugeData⟩, false, false⟩

theorem runCount_wpairs (n : Nat) :
    runCount isWordChar ((List.replicate n ['w', ' ']).flatten) false = n := by
  induction n with
  | zero => rfl
  | succ k ih =>
    have hw : isWordChar 'w' = true := rfl
    have hs : isWordChar ' ' = false := rfl
    simp [List.replicate_succ, runCount, hw, hs, ih]
    omega

theorem count_words_huge : count_words ⟨hugeData⟩ = 200000 := by
  have h := findallCount_eq_runCount isWordChar hugeData ScanMode.scanNW
  unfold count_words
  rw [show (⟨hugeData⟩ : String).data = hugeData from rfl, h]
  rw [show modeInRun ScanMode.scanNW = false from rfl]
  exact runCount_wpairs 200000

theorem fileWordCount_huge : fileWordCount hugeFile = 200000 := by
  rw [fileWordCount]
  rw [show hugeFile.countFails = false from rfl]
  rw [show hugeFile.content = (⟨hugeData⟩ : String) from rfl]
  simp only [Bool.false_eq_true, if_false]
  exact count_words_huge

theorem memsWc_huge : memsWc [hugeFile] = 200000 := by
  rw [memsWc]
  simp only [List.map_cons, List.map_nil, List.sum_cons, List.sum_nil, fileWordCount_huge,
    Nat.add_zero]

theorem combine_huge_mems :
    (combine_markdown_files [hugeFile] 100000).map Bundle.mems = [[hugeFile]] := rfl

/-- C1 counterexample: with `max_words = 1`, the inputs `a.md` (empty,
0 words) and `b.md` ("x y", 2 words) are packed into a single bundle
with two members and total word count 2 > 1, because the flush guard
tests `current_word_count > 0`, which is false after the zero-word
file.  This refutes the claim that every produced bundle with more
than one member has `total_words <= max_words`. -/
theorem c1_counterexample :
    ¬ (∀ b ∈ combine_markdown_files [fileA, fileB] 1,
        1 < b.mems.length → memsWc b.mems ≤ 1) := by
  decide

/-- C1 (amended): for every invocation of the bundle packer, every
produced bundle whose total word count exceeds `max_words` has exactly
one member with positive word count (additional members of word count
zero may share it); in particular a bundle with more than one member
all of positive word count never exceeds `max_words`. -/
theorem c1_threshold_amended (dirFiles : List MdFile) (m : Nat) (b : Bundle)
    (hb : b ∈ combine_markdown_files dirFiles m) (hm : m < memsWc b.mems) :
    (b.mems.filter (fun f => decide (0 < fileWordCount f))).length = 1 :=
  combine_mem_good dirFiles m b hb hm

/-- C1 witness: the amended theorem applied to the concrete
over-threshold bundle of the counterexample input. -/
theorem c1_threshold_amended_witness :
    1 < memsWc ((combine_markdown_files [fileA, fileB] 1).headI).mems ∧
    (((combine_markdown_files [fileA, fileB] 1).headI).mems.filter
        (fun f => decide (0 < fileWordCount f))).length = 1 :=
  ⟨by decide, c1_threshold_amended [fileA, fileB] 1 _ (by decide) (by decide)⟩

/-- C2 counterexample: with `max_words = 2`, the inputs `e.md` (empty,
0 words) and `h.md` ("w w w", 3 words) land in one shared bundle, so
the oversized artifact `h.md` is not placed alone into its own bundle
with exactly one member, refuting the claim as stated. -/
theorem c2_counterexample :
    ¬ (∀ b ∈ combine_markdown_files [fileE, fileH] 2, ∀ f ∈ b.mems,
        2 < fileWordCount f → b.mems.length = 1) := by
  decide

/-- C2 (amended): an artifact whose word count exceeds `max_words` is
never split; it is placed into a bundle in which it is the only member
with positive word count (zero-word artifacts already in the
accumulator may precede it); and the spec's concrete example holds: a
single input of 200000 words with `max_words = 100000` yields exactly
one bundle containing only that file, with total word count 200000. -/
theorem c2_oversized_amended :
    (∀ (dirFiles : List MdFile) (m : Nat) (b : Bundle) (f : MdFile),
        b ∈ combine_markdown_files dirFiles m → f ∈ b.mems → m < fileWordCount f →
        b.mems.filter (fun g => decide (0 < fileWordCount g)) = [f]) ∧
    ((combine_markdown_files [hugeFile] 100000).map Bundle.mems = [[hugeFile]] ∧
      memsWc [hugeFile] = 200000) := by
  refine ⟨?_, combine_huge_mems, memsWc_huge⟩
  intro dirFiles m b f hb hf hm
  have hsum : fileWordCount f ≤ memsWc b.mems := by
    apply List.single_le_sum (l := b.mems.map fileWordCount)
    · intro x _; exact Nat.zero_le x
    · exact List.mem_map_of_mem fileWordCount hf
  have hgt : m < memsWc b.mems := Nat.lt_of_lt_of_le hm hsum
  have hlen := combine_mem_good dirFiles m b hb hgt
  obtain ⟨g, hg⟩ := List.length_eq_one.mp hlen
  have hfpos : 0 < fileWordCount f := Nat.lt_of_le_of_lt (Nat.zero_le m) hm
  have hfin : f ∈ b.mems.filter (fun g => decide (0 < fileWordCount g)) :=
    List.mem_filter.mpr ⟨hf, by simpa using hfpos⟩
  rw [hg] at hfin
  have hfg : f = g := by simpa using hfin
  rw [hg, hfg]

/-- C2 witness: the amended theorem applied to the oversized artifact
`h.md` of the counterexample input. -/
theorem c2_oversized_amended_witness :
    2 < fileWordCount fileH ∧
    ((combine_markdown_files [fileE, fileH] 2).headI).mems.filter
        (fun g => decide (0 < fileWordCount g)) = [fileH] :=
  ⟨by decide,
    c2_oversized_amended.1 [fileE, fileH] 2 _ fileH (by decide) (by decide) (by decide)⟩

/-- C3 counterexample: after processing the zero-word file `a.md` the
accumulator is non-empty, and adding `b.md` (2 words) would exceed
`max_words = 1`, yet no bundle is finalized — the flush guard tests
`current_word_count > 0`, not accumulator non-emptiness.  This refutes
the claim that finalization happens exactly when the accumulator is
non-empty and adding the artifact would overflow. -/
theorem c3_counterexample :
    (packStep 1 initState fileA).mems ≠ [] ∧
    1 < (packStep 1 initState fileA).wc + fileWordCount fileB ∧
    (packStep 1 (packStep 1 initState fileA) fileB).out =
      (packStep 1 initState fileA).out := by
  decide

/-- C3 (amended): in the streaming partition loop the current bundle
accumulator is finalized (written out under the next sequential index,
appended to the result list, and reset) before adding the artifact
exactly when the current word total is positive and
`current_total + artifact.word_count > max_words`; on finalization the
bundle written is the flushed accumulator and, when the artifact's read
succeeds, the artifact is added to a freshly reset accumulator. -/
theorem c3_flush_amended (m : Nat) (st : PackState) (f : MdFile) :
    ((packStep m st f).out = st.out ↔ ¬(0 < st.wc ∧ m < st.wc + fileWordCount f)) ∧
    (0 < st.wc ∧ m < st.wc + fileWordCount f →
      (packStep m st f).out = st.out ++
        [⟨st.idx, packedName st.idx, String.intercalate bundleDelim st.content, st.mems⟩] ∧
      (packStep m st f).idx = st.idx + 1 ∧
      (f.readFails = false →
        (packStep m st f).mems = [f] ∧ (packStep m st f).wc = fileWordCount f)) := by
  by_cases hc : 0 < st.wc ∧ m < st.wc + fileWordCount f
  · have hout : (packStep m st f).out = st.out ++
        [⟨st.idx, packedName st.idx, String.intercalate bundleDelim st.content, st.mems⟩] := by
      by_cases hr : f.readFails = true <;> simp [packStep, hc, hr, flushState]
    have hidx : (packStep m st f).idx = st.idx + 1 := by
      by_cases hr : f.readFails = true <;> simp [packStep, hc, hr, flushState]
    refine ⟨⟨fun heq => ?_, fun hnc => absurd hc hnc⟩, fun _ => ⟨hout, hidx, fun hr => ?_⟩⟩
    · rw [hout] at heq
      have := congrArg List.length heq
      simp at this
    · constructor <;> simp [packStep, hc, hr, flushState]
  · have hout : (packStep m st f).out = st.out := by
      by_cases hr : f.readFails = true <;> simp [packStep, hc, hr]
    exact ⟨⟨fun _ => hc, fun _ => hout⟩, fun h => absurd h hc⟩

/-- C3 witness: the amended theorem applied at a reachable state (after
the one-word file `c.md`) and the two-word file `b.md` with
`max_words = 1`: the flush fires and writes the accumulated bundle. -/
theorem c3_flush_amended_witness :
    (0 < (packStep 1 initState fileC).wc ∧
      1 < (packStep 1 initState fileC).wc + fileWordCount fileB) ∧
    (packStep 1 (packStep 1 initState fileC) fileB).out =
      (packStep 1 initState fileC).out ++
        [⟨(packStep 1 initState fileC).idx, packedName (packStep 1 initState fileC).idx,
          String.intercalate bundleDelim (packStep 1 initState fileC).content,
          (packStep 1 initState fileC).mems⟩] :=
  ⟨by decide, ((c3_flush_amended 1 (packStep 1 initState fileC) fileB).2 (by decide)).1⟩

theorem joinMems_eq_sorted_of_readOK (dirFiles : List MdFile) (m : Nat)
    (h : ∀ f ∈ dirFiles, f.readFails = false) :
    joinMems (combine_markdown_files dirFiles m) = sortedEligible dirFiles := by
  rw [joinMems_combine]
  apply List.filter_eq_self.mpr
  intro f hf
  have h1 : f ∈ pySort (dirFiles.filter eligibleFile) := hf
  have h2 : f ∈ dirFiles := (List.mem_filter.mp (mem_pySort.mp h1)).1
  simp [readOK, h f h2]

/-- An input file whose stem is a proper prefix of another input's
stem. -/
def fileRep : MdFile := ⟨"report", "alpha", false, false⟩

/-- An input file whose stem extends `report`: its filename
`report-v2.md` sorts before `report.md` although its stem `report-v2`
sorts after the stem `report`. -/
def fileRepV2 : MdFile := ⟨"report-v2", "beta", false, false⟩

/-- C4 counterexample: with inputs `report.md` and `report-v2.md` (no
read errors), the program sorts `Path`s — filenames including the `.md`
extension — so `report-v2.md` comes first (the code point of `-` is
below that of `.`), and the concatenated bundle members are
`[report-v2, report]`, while the lexicographic sort order of artifact
names (stems) is `[report, report-v2]`.  This refutes the claim that
the concatenation equals the sort order of artifact names. -/
theorem c4_counterexample :
    (∀ f ∈ [fileRep, fileRepV2], f.readFails = false) ∧
    joinMems (combine_markdown_files [fileRep, fileRepV2] 100000) ≠
      nameSort (List.filter eligibleFile [fileRep, fileRepV2]) := by
  decide

/-- C4 (amended): assuming every artifact's read succeeds,
concatenating the member sequences of all produced bundles in
bundle-index order yields exactly the eligible input artifacts sorted
lexicographically by filename (stem plus `.md` extension), the order
`markdown_files.sort()` produces over `Path`s: packing never reorders
an artifact relative to that order and never splits one across two
bundles. -/
theorem c4_no_reordering (dirFiles : List MdFile) (m : Nat)
    (h : ∀ f ∈ dirFiles, f.readFails = false) :
    joinMems (combine_markdown_files dirFiles m) = sortedEligible dirFiles :=
  joinMems_eq_sorted_of_readOK dirFiles m h

/-- C4 witness: the amended theorem applied to the concrete input
`[report.md, report-v2.md]`, where filename order and stem order
differ. -/
theorem c4_no_reordering_witness :
    (∀ f ∈ [fileRep, fileRepV2], f.readFails = false) ∧
    joinMems (combine_markdown_files [fileRep, fileRepV2] 100) =
      sortedEligible [fileRep, fileRepV2] :=
  ⟨by decide, c4_no_reordering [fileRep, fileRepV2] 100 (by decide)⟩

/-- C5: assuming no read errors, the multiset of artifacts contained
across all produced bundles equals exactly the multiset of eligible
discovered input files — no artifact is duplicated and none is lost
(stated as a permutation of the concatenated member lists with the
eligible input list). -/
theorem c5_conservation (dirFiles : List MdFile) (m : Nat)
    (h : ∀ f ∈ dirFiles, f.readFails = false) :
    List.Perm (joinMems (combine_markdown_files dirFiles m))
      (dirFiles.filter eligibleFile) := by
  rw [joinMems_eq_sorted_of_readOK dirFiles m h]
  exact pySort_perm (dirFiles.filter eligibleFile)

/-- C5 witness: the theorem applied to the concrete input
`[c.md, b.md]`. -/
theorem c5_conservation_witness :
    (∀ f ∈ [fileC, fileB], f.readFails = false) ∧
    List.Perm (joinMems (combine_markdown_files [fileC, fileB] 100))
      (List.filter eligibleFile [fileC, fileB]) :=
  ⟨by decide, c5_conservation [fileC, fileB] 100 (by decide)⟩

/-- C6: for every text content, the word counter (the model of
`len(re.findall(r'\b\w+\b', content))`) returns the number of maximal
runs of alphanumeric/underscore characters in that content. -/
theorem c6_count_words_counts_runs (s : String) : count_words s = maximalRunCount s := by
  have h := findallCount_eq_runCount isWordChar s.data ScanMode.scanNW
  rw [count_words, maximalRunCount, h]
  rfl

/-- C7: a read failure on an individual source artifact skips exactly
that artifact — the loop step degenerates to the threshold check alone,
appending no content and adding no words — and globally the bundles
contain precisely the successfully read artifacts of the sorted
eligible input, in order: packing continues with all remaining
artifacts instead of aborting. -/
theorem c7_read_failure_skips :
    (∀ (m : Nat) (st : PackState) (f : MdFile), f.readFails = true →
      packStep m st f =
        if 0 < st.wc ∧ m < st.wc + fileWordCount f then flushState st else st) ∧
    (∀ (dirFiles : List MdFile) (m : Nat),
      joinMems (combine_markdown_files dirFiles m) =
        (sortedEligible dirFiles).filter readOK) := by
  constructor
  · intro m st f hr
    simp [packStep, hr]
  · intro dirFiles m
    exact joinMems_combine dirFiles m

/-- C7 witness: the step part applied to the concrete failing file
`r.md` in the initial state. -/
theorem c7_read_failure_skips_witness :
    fileR.readFails = true ∧
    packStep 3 initState fileR =
      (if 0 < initState.wc ∧ 3 < initState.wc + fileWordCount fileR then flushState initState
       else initState) :=
  ⟨rfl, c7_read_failure_skips.1 3 initState fileR rfl⟩

theorem combine_name_packed (dirFiles : List MdFile) (m : Nat) (b : Bundle)
    (hb : b ∈ combine_markdown_files dirFiles m) :
    pyStartswith b.name "packed_" = true := by
  obtain ⟨i, hi⟩ := List.getElem?_of_mem hb
  obtain ⟨_, hname, _⟩ := combine_shape dirFiles m i b hi
  rw [hname]
  exact pyStartswith_packedName i

/-- C8: discovery excludes every file whose stem starts with `packed_`,
and every bundle produced by the packer is named with the `packed_`
convention; hence a second run over the directory extended with the
first run's outputs discovers exactly the same eligible files — the
outputs of run 1 are never inputs of run 2. -/
theorem c8_idempotent_discovery :
    (∀ (dirFiles : List MdFile) (m : Nat),
      (dirFiles ++ (combine_markdown_files dirFiles m).map bundleToFile).filter eligibleFile =
        dirFiles.filter eligibleFile) ∧
    (∀ (dirFiles : List MdFile) (m : Nat) (b : Bundle),
      b ∈ combine_markdown_files dirFiles m → pyStartswith b.name "packed_" = true) := by
  constructor
  · intro dirFiles m
    rw [List.filter_append]
    have hnil : ((combine_markdown_files dirFiles m).map bundleToFile).filter
        eligibleFile = [] := by
      rw [List.filter_eq_nil_iff]
      intro f hf
      obtain ⟨b, hb, hfb⟩ := List.mem_map.mp hf
      have hsw := combine_name_packed dirFiles m b hb
      rw [← hfb]
      simp [eligibleFile, bundleToFile, hsw]
    rw [hnil, List.append_nil]
  · intro dirFiles m b hb
    exact combine_name_packed dirFiles m b hb

/-- C8 witness: the naming part applied to the bundle produced from the
concrete input `[c.md]`. -/
theorem c8_idempotent_discovery_witness :
    ((combine_markdown_files [fileC] 1).headI ∈ combine_markdown_files [fileC] 1) ∧
    pyStartswith ((combine_markdown_files [fileC] 1).headI).name "packed_" = true :=
  ⟨by decide, c8_idempotent_discovery.2 [fileC] 1 _ (by decide)⟩

/-- C9: the bundle in position `i` of the result list carries index
`i`, is written to the file `packed_<i>.md` (stem `packed_<i>`), and
its text is, for each member in order, `## <name>` followed by a blank
line and the member's content, the members joined by the delimiter
`\n\n---\n\n`. -/
theorem c9_bundle_naming_format (dirFiles : List MdFile) (m : Nat) (i : Nat) (b : Bundle)
    (hb : (combine_markdown_files dirFiles m)[i]? = some b) :
    b.index = i ∧ b.name = packedName i ∧ bundleFileName b = packedName i ++ ".md" ∧
    b.text = String.intercalate bundleDelim (b.mems.map fmtPiece) := by
  obtain ⟨h1, h2, h3⟩ := combine_shape dirFiles m i b hb
  exact ⟨h1, h2, by rw [bundleFileName, h2], h3⟩

/-- C9 witness: the theorem applied to the single bundle produced from
the concrete input `[d.md]`. -/
theorem c9_bundle_naming_format_witness :
    ((combine_markdown_files [fileD] 5).headI).index = 0 ∧
    ((combine_markdown_files [fileD] 5).headI).name = packedName 0 ∧
    bundleFileName ((combine_markdown_files [fileD] 5).headI) = packedName 0 ++ ".md" ∧
    ((combine_markdown_files [fileD] 5).headI).text =
      String.intercalate bundleDelim
        (((combine_markdown_files [fileD] 5).headI).mems.map fmtPiece) :=
  c9_bundle_naming_format [fileD] 5 0 _ (by decide)

/-- C10: every member of every produced bundle is one of the files of
the initial directory listing and its stem does not start with
`packed_`; since every bundle written during the invocation is named
`packed_<i>`, the bundles written by an invocation are never read back
as inputs of that same invocation — the input set was fixed by the
single discovery pass before any bundle was written. -/
theorem c10_inputs_fixed_before_writes (dirFiles : List MdFile) (m : Nat) (b : Bundle)
    (f : MdFile) (hb : b ∈ combine_markdown_files dirFiles m) (hf : f ∈ b.mems) :
    f ∈ dirFiles ∧ pyStartswith f.name "packed_" = false := by
  have hj : f ∈ joinMems (combine_markdown_files dirFiles m) :=
    mem_joinMems_of_mem _ b f hb hf
  rw [joinMems_combine] at hj
  have h1 : f ∈ sortedEligible dirFiles := (List.mem_filter.mp hj).1
  have h2 : f ∈ dirFiles.filter eligibleFile := mem_pySort.mp h1
  obtain ⟨hmem, helig⟩ := List.mem_filter.mp h2
  refine ⟨hmem, ?_⟩
  simpa [eligibleFile] using helig

/-- C10 witness: the theorem applied to the member `d.md` of the bundle
produced from the concrete input `[d.md]`. -/
theorem c10_inputs_fixed_before_writes_witness :
    fileD ∈ [fileD] ∧ pyStartswith fileD.name "packed_" = false :=
  c10_inputs_fixed_before_writes [fileD] 7 ((combine_markdown_files [fileD] 7).headI)
    fileD (by decide) (by decide)
